import Mathlib

/-!
Verification development for the puzzle-decoder client (src/decoder.py).
The Python source is shallowly embedded: JSON scalars are modelled by an
explicit dynamic-value type so that the untyped field accesses of the source
are reproduced faithfully, machine-level side effects (the fragment map, the
seen-identifier set, and a ghost trace of issued network requests) are
threaded as explicit state, and Python exceptions are modelled by the
Except monad.  The remote service is a parameter mapping an identifier to
an HTTP outcome.
-/

/-- Python exception classes that the decoder's code paths can raise. -/
inductive PyErr
  | typeError
  | valueError
  | indexError
deriving Repr, DecidableEq

/-- JSON scalar values as consumed by the decoder (integers and strings;
the response fields are never type-checked by the source, so fields of
either kind flow through unchecked). -/
inductive JVal
  | int (n : Int)
  | str (s : String)
deriving Repr, DecidableEq

/-- A puzzle fragment (decoder.py lines 14-19).  The dataclass performs no
validation, so every field holds whatever JSON scalar the response carried. -/
structure Fragment where
  id : JVal
  index : JVal
  text : JVal
deriving Repr, DecidableEq

/-- Outcome of one HTTP request: a response with a status code and a body
(`none` when the body is not valid JSON), a network error, or a timeout. -/
inductive HttpOutcome
  | response (status : Int) (body : Option (List (String × JVal)))
  | netError
  | timeout

/-- Mutable state of a PuzzleDecoder (decoder.py lines 25-30): the
index-to-fragment map, the seen-identifier set, and the concurrency bound.
`requested` is a ghost trace recording each identifier for which a network
request was actually issued; it never influences control flow. -/
structure DecoderState where
  fragments : List (JVal × Fragment)
  seen_ids : List Int
  max_concurrent : Int
  requested : List Int
deriving Repr, DecidableEq

/-- decoder.py lines 25-30: fresh decoder state (empty map, empty seen set,
concurrency bound 30).  `base_url` and `timeout` play no role in the
modelled logic. -/
def initState : DecoderState :=
  { fragments := [], seen_ids := [], max_concurrent := 30, requested := [] }

/-- Lookup of a key in a JSON object (Python `data[k]`, `none` = KeyError). -/
def jget (d : List (String × JVal)) (k : String) : Option JVal :=
  match d with
  | [] => none
  | p :: rest => if p.1 = k then some p.2 else jget rest k

/-- Python `<` on JSON scalars: defined within one type, TypeError across. -/
def pyLtJ (a b : JVal) : Except PyErr Bool :=
  match a, b with
  | .int m, .int n => .ok (decide (m < n))
  | .str s, .str t => .ok (decide (s < t))
  | _, _ => .error .typeError

/-- Python `>` on JSON scalars. -/
def pyGtJ (a b : JVal) : Except PyErr Bool :=
  match a, b with
  | .int m, .int n => .ok (decide (n < m))
  | .str s, .str t => .ok (decide (t < s))
  | _, _ => .error .typeError

/-- Python `+` on JSON scalars: int addition, string concatenation,
TypeError on a mixed pair (this is what `max_index + 1` hits when a
string-valued index got into the store). -/
def pyAddJ (a b : JVal) : Except PyErr JVal :=
  match a, b with
  | .int m, .int n => .ok (.int (m + n))
  | .str s, .str t => .ok (.str (s ++ t))
  | _, _ => .error .typeError

/-- Python `max(iterable)`: ValueError on empty, otherwise a left fold
comparing each element against the current maximum with `>`. -/
def pyMaxList : List JVal → Except PyErr JVal
  | [] => .error .valueError
  | x :: xs =>
    xs.foldlM (fun m y => do
      let b ← pyGtJ y m
      pure (if b then y else m)) x

/-- The integers `a, a+1, ...` of a given length. -/
def intRangeAux (a : Int) : Nat → List Int
  | 0 => []
  | n + 1 => a :: intRangeAux (a + 1) n

/-- Python `range(a, b)` (step 1). -/
def intRange (a b : Int) : List Int := intRangeAux a (b - a).toNat

/-- Descending arithmetic progression of a given length. -/
def intRangeDownAux (a step : Int) : Nat → List Int
  | 0 => []
  | n + 1 => a :: intRangeDownAux (a + step) step n

/-- Python `range(start, stop, step)`: ValueError when step is zero,
otherwise the arithmetic progression from start toward stop. -/
def pyRange3 (start stop step : Int) : Except PyErr (List Int) :=
  if step = 0 then .error .valueError
  else if 0 < step then
    .ok (intRangeDownAux start step ((stop - start + step - 1).toNat / step.toNat))
  else
    .ok (intRangeDownAux start step ((start - stop + (-step) - 1).toNat / (-step).toNat))

/-- Python `range(x)` where `x` came from dynamic data: TypeError unless
`x` is an integer. -/
def pyRange1 (stop : JVal) : Except PyErr (List Int) :=
  match stop with
  | .int n => .ok (intRange 0 n)
  | .str _ => .error .typeError

/-- Python list slice `l[a:b]` for the non-negative bounds this program uses. -/
def pySlice (l : List Int) (a b : Int) : List Int :=
  (l.drop a.toNat).take (b - a).toNat

/-- Python `l[0]`: IndexError on an empty list. -/
def pyGet0 : List Int → Except PyErr Int
  | [] => .error .indexError
  | x :: _ => .ok x

/-- Python `sep.join(items)`: TypeError on the first non-string item. -/
def pyJoin (sep : String) (items : List JVal) : Except PyErr String := do
  let ss ← items.mapM (fun v =>
    match v with
    | .str s => (.ok s : Except PyErr String)
    | .int _ => .error .typeError)
  .ok (String.intercalate sep ss)

/-- Dict write `fragments[k] = v`: replace in place if the key is present,
append otherwise (Python dicts keep insertion order for new keys). -/
def storeInsert (m : List (JVal × Fragment)) (k : JVal) (v : Fragment) :
    List (JVal × Fragment) :=
  match m with
  | [] => [(k, v)]
  | p :: rest => if p.1 = k then (k, v) :: rest else p :: storeInsert rest k v

/-- Dict read, first match (keys are unique in every reachable store). -/
def storeLookup (m : List (JVal × Fragment)) (k : JVal) : Option Fragment :=
  match m with
  | [] => none
  | p :: rest => if p.1 = k then some p.2 else storeLookup rest k

/-- `fragments.keys()`. -/
def storeKeys (m : List (JVal × Fragment)) : List JVal := m.map Prod.fst

/-- Python `k in fragments` (dict membership on the dynamic keys). -/
def hasKey (m : List (JVal × Fragment)) (k : JVal) : Prop := k ∈ storeKeys m

instance (m : List (JVal × Fragment)) (k : JVal) : Decidable (hasKey m k) := by
  unfold hasKey; infer_instance

/-- The response field names read by the decoder. -/
def keyId : String := "id"

/-- The response field carrying the sequence index. -/
def keyIndex : String := "index"

/-- The response field carrying the payload text. -/
def keyText : String := "text"

/-- The single-space separator used by message assembly. -/
def sepSpace : String := " "

/-- decoder.py lines 40-46: extract the three response fields of a
successful (status 200, JSON-parsable) response.  A missing field raises
KeyError inside the try block, which the bare except collapses to `none`;
field types are never checked. -/
def parseOutcome (o : HttpOutcome) : Option Fragment :=
  match o with
  | .response status body =>
    if status = 200 then
      match body with
      | some data =>
        match jget data keyId, jget data keyIndex, jget data keyText with
        | some i, some idx, some t => some { id := i, index := idx, text := t }
        | _, _, _ => none
      | none => none
    else none
  | .netError => none
  | .timeout => none

/-- decoder.py lines 32-51 (`fetch_fragment`): an already-seen identifier
short-circuits to `None`; otherwise one request is issued (recorded in the
ghost trace) and the identifier is added to `seen_ids` only when a Fragment
was actually built.  Every failure returns `None` instead of raising. -/
def fetch_fragment (svc : Int → HttpOutcome) (st : DecoderState) (fid : Int) :
    Option Fragment × DecoderState :=
  if fid ∈ st.seen_ids then (none, st)
  else
    match parseOutcome (svc fid) with
    | some frag =>
      (some frag, { st with seen_ids := fid :: st.seen_ids,
                            requested := st.requested ++ [fid] })
    | none => (none, { st with requested := st.requested ++ [fid] })

/-- decoder.py lines 56-57: the identifiers actually dispatched by
`fetch_batch` are `start_id + i` for `i in range(batch_size)` — a
contiguous run, regardless of which batch the caller had in hand. -/
def fetchBatchIds (start_id batch_size : Int) : List Int :=
  intRange start_id (start_id + batch_size)

/-- One task of `fetch_batch` (decoder.py line 58 together with the result
filter of line 62): run `fetch_fragment` for one identifier and keep the
result only when it is a Fragment. -/
def fbStep (svc : Int → HttpOutcome) (acc : List Fragment × DecoderState)
    (fid : Int) : List Fragment × DecoderState :=
  match fetch_fragment svc acc.2 fid with
  | (some f, st') => (acc.1 ++ [f], st')
  | (none, st') => (acc.1, st')

/-- decoder.py lines 53-62 (`fetch_batch`): run `fetch_fragment` over the
contiguous id run and keep the successful results in dispatch order. -/
def fetch_batch (svc : Int → HttpOutcome) (st : DecoderState)
    (start_id batch_size : Int) : List Fragment × DecoderState :=
  (fetchBatchIds start_id batch_size).foldl (fbStep svc) ([], st)

/-- decoder.py lines 64-74 (`is_puzzle_complete`): False on an empty map;
otherwise take `max` of the keys (TypeError on mixed-type keys), build
`range(max_index + 1)` (TypeError on a string key), and check every index
in it for membership. -/
def is_puzzle_complete (m : List (JVal × Fragment)) : Except PyErr Bool :=
  if m.isEmpty then .ok false
  else do
    let mx ← pyMaxList (storeKeys m)
    let stop ← pyAddJ mx (.int 1)
    let r ← pyRange1 stop
    .ok (r.all (fun i => decide (hasKey m (.int i))))

/-- Python `sorted` comparison on `(key, fragment)` items: equal keys fall
through to comparing Fragment values, which are unorderable (TypeError)
unless equal. -/
def pairLt (p q : JVal × Fragment) : Except PyErr Bool :=
  if p.1 = q.1 then
    if p.2 = q.2 then .ok false else .error .typeError
  else pyLtJ p.1 q.1

/-- Sorted insertion of one item under the Python comparison. -/
def insOneM (p : JVal × Fragment) :
    List (JVal × Fragment) → Except PyErr (List (JVal × Fragment))
  | [] => .ok [p]
  | q :: qs => do
    let b ← pairLt p q
    if b then .ok (p :: q :: qs)
    else do
      let r ← insOneM p qs
      .ok (q :: r)

/-- Python `sorted(fragments.items())`: a stable insertion sort under the
tuple comparison (on the unique keys of every reachable store this agrees
with any correct sort). -/
def pySortItems : List (JVal × Fragment) → Except PyErr (List (JVal × Fragment))
  | [] => .ok []
  | p :: ps => do
    let r ← pySortItems ps
    insOneM p r

/-- decoder.py lines 76-82 (`get_assembled_message`): empty string when the
puzzle is not complete, otherwise the fragment texts joined by a single
space in sorted key order. -/
def get_assembled_message (m : List (JVal × Fragment)) : Except PyErr String := do
  let c ← is_puzzle_complete m
  if c then do
    let sorted ← pySortItems m
    pyJoin sepSpace (sorted.map (fun p => p.2.text))
  else .ok ""

/-- Result of one phase of the strategy: `done` models the early `return`
taken the moment completeness holds, `cont` falls through to the next
phase. -/
inductive PhaseOut
  | done (st : DecoderState)
  | cont (st : DecoderState)
deriving Repr, DecidableEq

/-- decoder.py lines 96-99 / 127-130 / 149-151: ingest a batch of fetched
fragments, keying each under its own `index` field (last write wins). -/
def ingestList (m : List (JVal × Fragment)) (fs : List Fragment) :
    List (JVal × Fragment) :=
  fs.foldl (fun acc f => storeInsert acc f.index f) m

/-- decoder.py lines 92-102: the Discovering loop over the chunk start
offsets.  Each chunk is sliced out of the sample, but only its first
element and its length are handed to `fetch_batch`. -/
def phase1Loop (svc : Int → HttpOutcome) (sample : List Int) (bs : Int) :
    List Int → DecoderState → Except PyErr PhaseOut
  | [], st => .ok (.cont st)
  | i :: rest, st => do
    let batch := pySlice sample i (i + bs)
    let b0 ← pyGet0 batch
    let (frs, st') := fetch_batch svc st b0 (batch.length : Int)
    let st'' := { st' with fragments := ingestList st'.fragments frs }
    let c ← is_puzzle_complete st''.fragments
    if c then .ok (.done st'')
    else phase1Loop svc sample bs rest st''

/-- decoder.py lines 87-102 (Phase 1, Discovering): chunk the sampled
identifier list by `min(max_concurrent, len(sample))` and probe each chunk;
`random.sample` is modelled by taking the sampled list as an input. -/
def phase1 (svc : Int → HttpOutcome) (sample : List Int) (st : DecoderState) :
    Except PyErr PhaseOut := do
  let batch_size := min st.max_concurrent (sample.length : Int)
  let idxs ← pyRange3 0 (sample.length : Int) batch_size
  phase1Loop svc sample batch_size idxs st

/-- decoder.py lines 119-130: the GapFilling loop over chunk start offsets
of the not-yet-seen identifier list, breaking as soon as completeness
holds. -/
def phase2Loop (svc : Int → HttpOutcome) (remaining : List Int) (mc : Int) :
    List Int → DecoderState → Except PyErr DecoderState
  | [], st => .ok st
  | i :: rest, st => do
    let c ← is_puzzle_complete st.fragments
    if c then .ok st
    else do
      let batch := pySlice remaining i (i + mc)
      let b0 ← pyGet0 batch
      let (frs, st') := fetch_batch svc st b0 (batch.length : Int)
      phase2Loop svc remaining mc rest
        { st' with fragments := ingestList st'.fragments frs }

/-- decoder.py lines 104-130 (Phase 2, GapFilling): when something was
discovered, compute the missing indices below the maximum and, if any,
sweep every unseen identifier in `range(1, 10000)` in concurrency-sized
chunks. -/
def phase2 (svc : Int → HttpOutcome) (st : DecoderState) :
    Except PyErr DecoderState := do
  if st.fragments.isEmpty then .ok st
  else do
    let mx ← pyMaxList (storeKeys st.fragments)
    let stop ← pyAddJ mx (.int 1)
    let r ← pyRange1 stop
    let missing := r.filter (fun i => !(decide (hasKey st.fragments (.int i))))
    if missing.isEmpty then .ok st
    else do
      let remaining := (intRange 1 10000).filter
        (fun fid => !(decide (fid ∈ st.seen_ids)))
      let idxs ← pyRange3 0 (remaining.length : Int) st.max_concurrent
      phase2Loop svc remaining st.max_concurrent idxs st

/-- One evaluation of the Phase 3 loop: either the guard fails (`exit`),
the guard's completeness check raises (`err`), or the body runs and the
loop continues with updated locals (`next`). -/
inductive P3Step
  | exit (ds : DecoderState)
  | next (ds : DecoderState) (sid : Int) (cf : Nat)
  | err (e : PyErr)

/-- decoder.py lines 134-155 (Phase 3 loop body): the window of unseen
identifiers is computed, an all-seen window is skipped without touching the
failure counter, and otherwise the window is probed (contiguously from its
first unseen identifier); a non-empty result resets the consecutive-failure
counter, an empty one increments it. -/
def phase3Step (svc : Int → HttpOutcome) (ds : DecoderState) (sid : Int)
    (cf : Nat) : P3Step :=
  match is_puzzle_complete ds.fragments with
  | .error e => .err e
  | .ok c =>
    if !c && decide (cf < 100) then
      match (intRange sid (sid + ds.max_concurrent)).filter
          (fun fid => !(decide (fid ∈ ds.seen_ids))) with
      | [] => .next ds (sid + ds.max_concurrent) cf
      | b0 :: tl =>
        let (frs, ds') := fetch_batch svc ds b0 ((b0 :: tl).length : Int)
        if frs.isEmpty then .next ds' (sid + ds.max_concurrent) (cf + 1)
        else .next { ds' with fragments := ingestList ds'.fragments frs }
          (sid + ds.max_concurrent) 0
    else .exit ds

/-- decoder.py lines 132-155 (Phase 3, ExtendedSearch): iterate the loop
body with explicit fuel; `.ok none` means the fuel ran out with the loop
still running (the source has no such bound — its loop runs unboundedly). -/
def phase3Run (svc : Int → HttpOutcome) :
    Nat → DecoderState → Int → Nat → Except PyErr (Option DecoderState)
  | 0, _, _, _ => .ok none
  | fuel + 1, ds, sid, cf =>
    match phase3Step svc ds sid cf with
    | .err e => .error e
    | .exit ds' => .ok (some ds')
    | .next ds' sid' cf' => phase3Run svc fuel ds' sid' cf'

/-- decoder.py lines 84-155 (`smart_search_strategy`): Phase 1, then — if
it did not return early — Phase 2, then Phase 3 starting at identifier 1
with a zeroed failure counter. -/
def smart_search_strategy (svc : Int → HttpOutcome) (sample : List Int)
    (fuel : Nat) (st : DecoderState) : Except PyErr (Option DecoderState) := do
  match ← phase1 svc sample st with
  | .done st' => .ok (some st')
  | .cont st' => do
    let st'' ← phase2 svc st'
    phase3Run svc fuel st'' 1 0

/-- decoder.py lines 157-196 (`solve_puzzle`): run the strategy and then
report.  The returned Bool models the success/failure status the code
reports to its caller (the distinct success and failure paths of lines
180-196); the String is the function's return value — the assembled
message on the success path, the empty string on the failure path. -/
def solve_puzzle (svc : Int → HttpOutcome) (sample : List Int) (fuel : Nat)
    (st : DecoderState) : Except PyErr (Option (String × Bool)) := do
  match ← smart_search_strategy svc sample fuel st with
  | none => .ok none
  | some st' => do
    let c ← is_puzzle_complete st'.fragments
    if c then do
      let msg ← get_assembled_message st'.fragments
      .ok (some (msg, true))
    else .ok (some ("", false))

/-- The integer under an integer JSON scalar (0 on a string, used only
under an all-integer hypothesis). -/
def jvalInt : JVal → Int
  | .int n => n
  | .str _ => 0

/-- The string under a string JSON scalar. -/
def jvalStr : JVal → String
  | .str s => s
  | .int _ => ""

/-- The store's keys read as integers. -/
def keyInts (m : List (JVal × Fragment)) : List Int :=
  m.map (fun p => jvalInt p.1)

/-- Maximum of a list of integers, head-seeded (0 on the empty list, which
the callers rule out). -/
def listMax1 : List Int → Int
  | [] => 0
  | x :: xs => xs.foldl max x

/-- The maximum index currently held, read as an integer. -/
def maxKeyInt (m : List (JVal × Fragment)) : Int := listMax1 (keyInts m)

/-- Every key of the store is an integer JSON scalar. -/
def allIntKeysB (m : List (JVal × Fragment)) : Bool :=
  m.all (fun p => match p.1 with | .int _ => true | .str _ => false)

/-- Every fragment text in the store is a string JSON scalar. -/
def strTextsB (m : List (JVal × Fragment)) : Bool :=
  m.all (fun p => match p.2.text with | .str _ => true | .int _ => false)

/-- The store's keys are pairwise distinct. -/
def keysNodup (m : List (JVal × Fragment)) : Prop := (storeKeys m).Nodup

instance (m : List (JVal × Fragment)) : Decidable (keysNodup m) := by
  unfold keysNodup; infer_instance

/-- Store invariant: unique keys, and each fragment sits under its own
index. -/
def StoreWF (m : List (JVal × Fragment)) : Prop :=
  keysNodup m ∧ ∀ p ∈ m, p.1 = p.2.index

/-- The payload text held at integer index `i`. -/
def textAtI (m : List (JVal × Fragment)) (i : Int) : String :=
  match storeLookup m (.int i) with
  | some f => jvalStr f.text
  | none => ""

/-- Insert one element into a sorted list under a boolean comparator. -/
def insertByB {α : Type} (lt : α → α → Bool) (x : α) : List α → List α
  | [] => [x]
  | y :: ys => if lt x y then x :: y :: ys else y :: insertByB lt x ys

/-- Insertion sort under a boolean comparator. -/
def sortByB {α : Type} (lt : α → α → Bool) (l : List α) : List α :=
  l.foldr (insertByB lt) []

/-- Strict comparison of store items by integer key. -/
def keyLtB (p q : JVal × Fragment) : Bool := decide (jvalInt p.1 < jvalInt q.1)

/-- Ascending sort of integer indices (the order assembly must follow). -/
def sortedInts (l : List Int) : List Int :=
  sortByB (fun a b => decide (a < b)) l

/-- Last-write-wins choice over an ingested fragment list: the last
fragment carrying index `k`, if any. -/
def lwwLookup (fs : List Fragment) (k : JVal) : Option Fragment :=
  fs.foldl (fun acc f => if f.index = k then some f else acc) none

/-- The service never yields a parsable fragment (every probe is Absent). -/
def svcFails (svc : Int → HttpOutcome) : Prop :=
  ∀ fid, parseOutcome (svc fid) = none

/-- Phase 3 never leaves its loop: every fuel bound is exhausted with the
loop still running. -/
def phase3RunsForever (svc : Int → HttpOutcome) (ds : DecoderState)
    (sid : Int) (cf : Nat) : Prop :=
  ∀ fuel, phase3Run svc fuel ds sid cf = .ok none

/-- Maximum of a list of integers against a floor of 0. -/
def listMax0 (l : List Int) : Int := l.foldl max 0

/-- Fuel that provably suffices for Phase 3 under a fragmentless service:
each probed window raises the failure counter toward 100 and every window
advances the cursor, which can only be skipped while it is below the
largest seen identifier. -/
def p3Measure (ds : DecoderState) (sid : Int) (cf : Nat) : Nat :=
  101 * (100 - cf) + (listMax0 ds.seen_ids + 1 - sid).toNat

/-- A service with every identifier missing (HTTP 404). -/
def svcNotFound : Int → HttpOutcome := fun _ => .response 404 none

/-- A service where every request times out. -/
def svcTimeoutAll : Int → HttpOutcome := fun _ => .timeout

/-- A service holding fragment 0 at identifier 5 and fragment 1 at
identifier 9 (the spec's end-to-end success scenario). -/
def svcGood : Int → HttpOutcome := fun fid =>
  if fid = 5 then
    .response 200 (some [(keyId, .int 5), (keyIndex, .int 0), (keyText, .str "Hello")])
  else if fid = 9 then
    .response 200 (some [(keyId, .int 9), (keyIndex, .int 1), (keyText, .str "World")])
  else .response 404 none

/-- A service answering every probe with a well-formed 200 response whose
`index` field is the string "x" — malformed by type, not by absence. -/
def svcBadIdx : Int → HttpOutcome := fun fid =>
  .response 200 (some [(keyId, .int fid), (keyIndex, .str "x"), (keyText, .str "t")])

/-- A service answering every probe with a fragment at index 1: it always
yields fragments yet the store never becomes complete. -/
def svcAdv : Int → HttpOutcome := fun fid =>
  .response 200 (some [(keyId, .int fid), (keyIndex, .int 1), (keyText, .str "x")])

/-- A 50-element Discovering sample. -/
def sample50 : List Int := intRange 1 51

/-- A decoder state carrying an invalid (negative) concurrency limit. -/
def stNeg : DecoderState := { initState with max_concurrent := -5 }

/-- A decoder state carrying concurrency limit 1. -/
def stMc1 : DecoderState := { initState with max_concurrent := 1 }

/-- Fragments A, B, C at indices 0, 1, 2, listed out of order. -/
def fragsABC : List Fragment :=
  [{ id := .int 3, index := .int 1, text := .str "B" },
   { id := .int 1, index := .int 0, text := .str "A" },
   { id := .int 2, index := .int 2, text := .str "C" }]

/-- A store holding exactly indices 0, 1, 2 (ingested out of order). -/
def storeABC : List (JVal × Fragment) := ingestList [] fragsABC

/-- A store holding exactly indices 0 and 2 (gap at 1). -/
def store02 : List (JVal × Fragment) :=
  ingestList []
    [{ id := .int 1, index := .int 0, text := .str "A" },
     { id := .int 2, index := .int 2, text := .str "C" }]

/-- A store holding a single fragment at the negative index -1. -/
def storeNeg : List (JVal × Fragment) :=
  [(.int (-1), { id := .int 7, index := .int (-1), text := .str "z" })]

/-- Two fetched fragments carrying the same index 0. -/
def fragsDup : List Fragment :=
  [{ id := .int 1, index := .int 0, text := .str "old" },
   { id := .int 2, index := .int 0, text := .str "new" }]

/-- A decoder state that has already seen identifier 7. -/
def stSeen7 : DecoderState := { initState with seen_ids := [7] }

/-- The strategy's terminal state for the end-to-end success scenario. -/
def stW1 : DecoderState :=
  { fragments := [(.int 0, { id := .int 5, index := .int 0, text := .str "Hello" })],
    seen_ids := [5], max_concurrent := 30, requested := [5, 6] }

/-- The strategy's terminal state for the give-up scenario under
concurrency limit 1: no fragments, nothing seen, identifiers 5 then 1..100
probed. -/
def stW2 : DecoderState :=
  { fragments := [], seen_ids := [], max_concurrent := 1,
    requested := 5 :: intRange 1 101 }

/-- A store holding a single fragment at index 0. -/
def store0 : List (JVal × Fragment) :=
  [(.int 0, { id := .int 5, index := .int 0, text := .str "Hello" })]

deriving instance DecidableEq for Except

set_option maxRecDepth 4000

/-! ### Store lemmas -/

theorem storeKeys_nil : storeKeys [] = [] := rfl

theorem storeKeys_cons (p : JVal × Fragment) (l : List (JVal × Fragment)) :
    storeKeys (p :: l) = p.1 :: storeKeys l := rfl

theorem storeInsert_nil (k : JVal) (v : Fragment) : storeInsert [] k v = [(k, v)] := rfl

theorem storeInsert_cons (p : JVal × Fragment) (rest : List (JVal × Fragment))
    (k : JVal) (v : Fragment) :
    storeInsert (p :: rest) k v =
      if p.1 = k then (k, v) :: rest else p :: storeInsert rest k v := rfl

theorem storeLookup_nil (k : JVal) : storeLookup [] k = none := rfl

theorem storeLookup_cons (p : JVal × Fragment) (rest : List (JVal × Fragment))
    (k : JVal) :
    storeLookup (p :: rest) k =
      if p.1 = k then some p.2 else storeLookup rest k := rfl

theorem storeLookup_insert (m : List (JVal × Fragment)) (k : JVal) (v : Fragment)
    (k' : JVal) :
    storeLookup (storeInsert m k v) k' =
      if k' = k then some v else storeLookup m k' := by
  induction m with
  | nil =>
    rw [storeInsert_nil]
    show (if k = k' then some v else none) = if k' = k then some v else none
    by_cases h : k = k'
    · subst h; simp
    · rw [if_neg h, if_neg (fun hc => h hc.symm)]
  | cons p rest ih =>
    rw [storeInsert_cons]
    by_cases hp : p.1 = k
    · rw [if_pos hp, storeLookup_cons, storeLookup_cons]
      by_cases h : k = k'
      · subst h; simp
      · rw [if_neg h, if_neg (fun hc => h hc.symm), if_neg (hp ▸ h)]
    · rw [if_neg hp, storeLookup_cons, storeLookup_cons]
      by_cases h1 : p.1 = k'
      · have hne : ¬ k' = k := fun hc => hp (h1.trans hc)
        rw [if_pos h1, if_neg hne, if_pos h1]
      · rw [if_neg h1, if_neg h1, ih]

theorem mem_storeKeys_insert (m : List (JVal × Fragment)) (k : JVal)
    (v : Fragment) (a : JVal) :
    a ∈ storeKeys (storeInsert m k v) ↔ a = k ∨ a ∈ storeKeys m := by
  induction m with
  | nil =>
    rw [storeInsert_nil, storeKeys_cons, storeKeys_nil]
    simp
  | cons p rest ih =>
    rw [storeInsert_cons]
    by_cases hp : p.1 = k
    · rw [if_pos hp, storeKeys_cons, storeKeys_cons]
      subst hp
      simp [List.mem_cons]
    · rw [if_neg hp, storeKeys_cons, storeKeys_cons]
      simp only [List.mem_cons, ih]
      tauto

theorem keysNodup_insert (m : List (JVal × Fragment)) (k : JVal) (v : Fragment)
    (h : keysNodup m) : keysNodup (storeInsert m k v) := by
  induction m with
  | nil =>
    rw [storeInsert_nil]
    simp [keysNodup, storeKeys]
  | cons p rest ih =>
    have hcons : p.1 ∉ storeKeys rest ∧ keysNodup rest := by
      have := h
      rw [keysNodup, storeKeys_cons, List.nodup_cons] at this
      exact ⟨this.1, this.2⟩
    rw [storeInsert_cons]
    by_cases hp : p.1 = k
    · rw [if_pos hp, keysNodup, storeKeys_cons, List.nodup_cons]
      exact ⟨hp ▸ hcons.1, hcons.2⟩
    · rw [if_neg hp, keysNodup, storeKeys_cons, List.nodup_cons]
      refine ⟨?_, ih hcons.2⟩
      intro hc
      rcases (mem_storeKeys_insert rest k v p.1).mp hc with hc' | hc'
      · exact hp hc'
      · exact hcons.1 hc'

theorem storeWF_keyIndex (m : List (JVal × Fragment)) (f : Fragment)
    (h : ∀ p ∈ m, p.1 = p.2.index) :
    ∀ p ∈ storeInsert m f.index f, p.1 = p.2.index := by
  induction m with
  | nil =>
    intro p hp
    rw [storeInsert_nil] at hp
    rcases List.mem_singleton.mp hp with rfl
    rfl
  | cons q rest ih =>
    intro p hp
    rw [storeInsert_cons] at hp
    by_cases hq : q.1 = f.index
    · rw [if_pos hq] at hp
      rcases List.mem_cons.mp hp with rfl | hp'
      · rfl
      · exact h p (List.mem_cons_of_mem q hp')
    · rw [if_neg hq] at hp
      rcases List.mem_cons.mp hp with rfl | hp'
      · exact h p (List.mem_cons_self p rest)
      · exact ih (fun r hr => h r (List.mem_cons_of_mem q hr)) p hp'

theorem storeWF_insert (m : List (JVal × Fragment)) (f : Fragment)
    (h : StoreWF m) : StoreWF (storeInsert m f.index f) :=
  ⟨keysNodup_insert m f.index f h.1, storeWF_keyIndex m f h.2⟩

theorem lwwLookup_foldl (fs : List Fragment) (k : JVal) (a : Option Fragment) :
    fs.foldl (fun acc f => if f.index = k then some f else acc) a =
      (match lwwLookup fs k with
       | some f => some f
       | none => a) := by
  induction fs generalizing a with
  | nil => simp [lwwLookup]
  | cons f fs ih =>
    show fs.foldl _ (if f.index = k then some f else a) = _
    rw [ih]
    have hcons : lwwLookup (f :: fs) k =
        (match lwwLookup fs k with
         | some g => some g
         | none => if f.index = k then some f else none) := by
      show fs.foldl _ (if f.index = k then some f else none) = _
      rw [ih]
    rw [hcons]
    cases lwwLookup fs k with
    | some g => rfl
    | none =>
      by_cases hk : f.index = k
      · rw [if_pos hk, if_pos hk]
      · rw [if_neg hk, if_neg hk]

theorem ingestList_nil (m : List (JVal × Fragment)) : ingestList m [] = m := rfl

theorem ingestList_cons (m : List (JVal × Fragment)) (f : Fragment)
    (fs : List Fragment) :
    ingestList m (f :: fs) = ingestList (storeInsert m f.index f) fs := rfl

theorem storeLookup_ingestList (m : List (JVal × Fragment)) (fs : List Fragment)
    (k : JVal) :
    storeLookup (ingestList m fs) k =
      (match lwwLookup fs k with
       | some f => some f
       | none => storeLookup m k) := by
  induction fs generalizing m with
  | nil => simp [ingestList_nil, lwwLookup]
  | cons f fs ih =>
    rw [ingestList_cons, ih]
    have hcons : lwwLookup (f :: fs) k =
        (match lwwLookup fs k with
         | some g => some g
         | none => if f.index = k then some f else none) := by
      show fs.foldl _ (if f.index = k then some f else none) = _
      rw [lwwLookup_foldl]
    rw [hcons, storeLookup_insert]
    cases lwwLookup fs k with
    | some g => rfl
    | none =>
      by_cases hk : f.index = k
      · rw [if_pos hk, if_pos (hk ▸ rfl : k = f.index)]
      · rw [if_neg hk, if_neg (fun hc : k = f.index => hk hc.symm)]

theorem storeWF_ingestList (m : List (JVal × Fragment)) (fs : List Fragment)
    (h : StoreWF m) : StoreWF (ingestList m fs) := by
  induction fs generalizing m with
  | nil => exact h
  | cons f fs ih => exact ih _ (storeWF_insert m f h)

/-- C4: every ingestion step (the loops at decoder.py lines 96-99 and
149-151, which execute `fragments[fragment.index] = fragment`) preserves
the store invariant — keys stay pairwise distinct, the fragment stored
under a key carries that key as its own index, and a key maps to the most
recently ingested fragment with that index (last write wins), falling back
to the prior binding when the ingested batch carried no such index. -/
theorem C4_ingest_invariant (m : List (JVal × Fragment)) (fs : List Fragment)
    (h : StoreWF m) :
    StoreWF (ingestList m fs) ∧
    ∀ k, storeLookup (ingestList m fs) k =
      (match lwwLookup fs k with
       | some f => some f
       | none => storeLookup m k) :=
  ⟨storeWF_ingestList m fs h, fun k => storeLookup_ingestList m fs k⟩

/-- Witness for C4: ingesting two fetched fragments that both carry index 0
into the empty store leaves exactly the later one at key 0. -/
theorem C4_ingest_invariant_witness :
    StoreWF ([] : List (JVal × Fragment)) ∧
    storeLookup (ingestList [] fragsDup) (.int 0) =
      some { id := .int 2, index := .int 0, text := .str "new" } := by
  have hwf : StoreWF ([] : List (JVal × Fragment)) :=
    ⟨List.nodup_nil, fun p hp => absurd hp (List.not_mem_nil p)⟩
  refine ⟨hwf, ?_⟩
  rw [(C4_ingest_invariant [] fragsDup hwf).2 (.int 0)]
  rfl

/-! ### Fetch lemmas -/

theorem fetch_fragment_seen (svc : Int → HttpOutcome) (st : DecoderState)
    (fid : Int) (h : fid ∈ st.seen_ids) :
    fetch_fragment svc st fid = (none, st) := by
  rw [fetch_fragment, if_pos h]

theorem fetch_fragment_ok (svc : Int → HttpOutcome) (st : DecoderState)
    (fid : Int) (h : fid ∉ st.seen_ids) (f : Fragment)
    (hp : parseOutcome (svc fid) = some f) :
    fetch_fragment svc st fid =
      (some f, { st with seen_ids := fid :: st.seen_ids,
                         requested := st.requested ++ [fid] }) := by
  rw [fetch_fragment, if_neg h, hp]

theorem fetch_fragment_absent (svc : Int → HttpOutcome) (st : DecoderState)
    (fid : Int) (h : fid ∉ st.seen_ids)
    (hp : parseOutcome (svc fid) = none) :
    fetch_fragment svc st fid =
      (none, { st with requested := st.requested ++ [fid] }) := by
  rw [fetch_fragment, if_neg h, hp]

/-- C5 (corrected): the fetch of a *not-found* identifier completes with
the Absent outcome and leaves the seen set untouched — refuting the claim
that every completed probe of `k` puts `k` into `seenIdentifiers`. -/
theorem C5_counterexample :
    (fetch_fragment svcNotFound initState 7).1 = none ∧
    (7 : Int) ∉ (fetch_fragment svcNotFound initState 7).2.seen_ids := by
  constructor
  · rfl
  · intro h
    exact absurd (by simpa using h) (by decide)

/-- C5 (amended): the seen set records exactly the successfully fetched
identifiers — a fetch that yields a Fragment adds its identifier to the
set, a fetch that yields Absent leaves the set unchanged, the set only
ever grows, and a fetch of an identifier already in the set
short-circuits to Absent with the state (including the request trace)
completely unchanged. -/
theorem C5_seen_set (svc : Int → HttpOutcome) (st : DecoderState) (k : Int) :
    (∀ f, (fetch_fragment svc st k).1 = some f →
      k ∈ (fetch_fragment svc st k).2.seen_ids) ∧
    ((fetch_fragment svc st k).1 = none →
      (fetch_fragment svc st k).2.seen_ids = st.seen_ids) ∧
    (∀ i ∈ st.seen_ids, i ∈ (fetch_fragment svc st k).2.seen_ids) ∧
    (k ∈ st.seen_ids → fetch_fragment svc st k = (none, st)) := by
  refine ⟨?_, ?_, ?_, fun h => fetch_fragment_seen svc st k h⟩
  · intro f hf
    by_cases h : k ∈ st.seen_ids
    · rw [fetch_fragment_seen svc st k h] at hf
      cases hf
    · cases hp : parseOutcome (svc k) with
      | none => rw [fetch_fragment_absent svc st k h hp] at hf; cases hf
      | some g =>
        rw [fetch_fragment_ok svc st k h g hp]
        exact List.mem_cons_self k st.seen_ids
  · intro hn
    by_cases h : k ∈ st.seen_ids
    · rw [fetch_fragment_seen svc st k h]
    · cases hp : parseOutcome (svc k) with
      | none => rw [fetch_fragment_absent svc st k h hp]
      | some g =>
        rw [fetch_fragment_ok svc st k h g hp] at hn
        cases hn
  · intro i hi
    by_cases h : k ∈ st.seen_ids
    · rw [fetch_fragment_seen svc st k h]; exact hi
    · cases hp : parseOutcome (svc k) with
      | none => rw [fetch_fragment_absent svc st k h hp]; exact hi
      | some g =>
        rw [fetch_fragment_ok svc st k h g hp]
        exact List.mem_cons_of_mem k hi

/-- Witness for C5: identifier 7 is already in the seen set and its
re-fetch returns Absent with the state unchanged; a not-found fetch of an
unseen identifier 7 yields Absent and leaves the (empty) seen set
unchanged. -/
theorem C5_seen_set_witness :
    (7 : Int) ∈ stSeen7.seen_ids ∧
    fetch_fragment svcNotFound stSeen7 7 = (none, stSeen7) ∧
    (fetch_fragment svcNotFound initState 7).1 = none ∧
    (fetch_fragment svcNotFound initState 7).2.seen_ids = initState.seen_ids :=
  ⟨by decide, (C5_seen_set svcNotFound stSeen7 7).2.2.2 (by decide),
   rfl, (C5_seen_set svcNotFound initState 7).2.1 rfl⟩

/-- C6 (corrected): a status-200 response whose three fields are present
but ill-typed (here `index` is the string "x") is *not* collapsed to
Absent — the fetch returns a Fragment built from the junk values, and a
store keyed by such a junk index makes the completeness check raise a
TypeError, which does propagate into the search strategy. -/
theorem C6_counterexample :
    (fetch_fragment svcBadIdx initState 1).1 =
      some { id := .int 1, index := .str "x", text := .str "t" } ∧
    is_puzzle_complete
      (ingestList [] [{ id := .int 1, index := .str "x", text := .str "t" }]) =
      .error .typeError := by
  constructor <;> rfl

/-- C6 (amended): every fetch outcome that does not parse into a Fragment —
a non-200 status (not found), an unparsable body, a *missing* field, a
network error, or a timeout — yields the Absent outcome without raising,
and leaves both the fragment store and the seen set unchanged. -/
theorem C6_absent_failures (svc : Int → HttpOutcome) (st : DecoderState)
    (k : Int) (h : parseOutcome (svc k) = none) :
    (fetch_fragment svc st k).1 = none ∧
    (fetch_fragment svc st k).2.fragments = st.fragments ∧
    (fetch_fragment svc st k).2.seen_ids = st.seen_ids := by
  by_cases hs : k ∈ st.seen_ids
  · rw [fetch_fragment_seen svc st k hs]
    exact ⟨rfl, rfl, rfl⟩
  · rw [fetch_fragment_absent svc st k hs h]
    exact ⟨rfl, rfl, rfl⟩

/-- Witness for C6: a 404 for identifier 3 parses to nothing, and the fetch
returns Absent. -/
theorem C6_absent_failures_witness :
    parseOutcome (svcNotFound 3) = none ∧
    (fetch_fragment svcNotFound initState 3).1 = none :=
  ⟨rfl, (C6_absent_failures svcNotFound initState 3 rfl).1⟩

/-! ### Range and Phase 3 step lemmas -/

theorem intRange_empty (a b : Int) (h : b ≤ a) : intRange a b = [] := by
  rw [intRange]
  have h0 : (b - a).toNat = 0 := by omega
  rw [h0]
  rfl

theorem mem_intRangeAux (a : Int) (n : Nat) (i : Int) :
    i ∈ intRangeAux a n ↔ a ≤ i ∧ i < a + n := by
  induction n generalizing a with
  | zero => simp [intRangeAux]
  | succ n ih =>
    rw [intRangeAux]
    simp only [List.mem_cons, ih]
    constructor
    · rintro (rfl | ⟨h1, h2⟩) <;> constructor <;> omega
    · intro ⟨h1, h2⟩
      by_cases ha : i = a
      · exact Or.inl ha
      · exact Or.inr ⟨by omega, by omega⟩

theorem mem_intRange (a b i : Int) : i ∈ intRange a b ↔ a ≤ i ∧ i < b := by
  rw [intRange, mem_intRangeAux]
  omega

theorem intRange_cons (a b : Int) (h : a < b) :
    intRange a b = a :: intRange (a + 1) b := by
  rw [intRange, intRange]
  have h1 : (b - a).toNat = (b - (a + 1)).toNat + 1 := by omega
  rw [h1]
  rfl

theorem phase3Step_skip (svc : Int → HttpOutcome) (ds : DecoderState)
    (sid : Int) (cf : Nat) (hc : is_puzzle_complete ds.fragments = .ok false)
    (hcf : cf < 100)
    (hf : (intRange sid (sid + ds.max_concurrent)).filter
      (fun fid => !(decide (fid ∈ ds.seen_ids))) = []) :
    phase3Step svc ds sid cf = .next ds (sid + ds.max_concurrent) cf := by
  unfold phase3Step
  rw [hc, hf]
  simp [hcf]

theorem phase3Step_probe (svc : Int → HttpOutcome) (ds : DecoderState)
    (sid : Int) (cf : Nat) (hc : is_puzzle_complete ds.fragments = .ok false)
    (hcf : cf < 100) (b0 : Int) (tl : List Int)
    (hf : (intRange sid (sid + ds.max_concurrent)).filter
      (fun fid => !(decide (fid ∈ ds.seen_ids))) = b0 :: tl) :
    phase3Step svc ds sid cf =
      (let r := fetch_batch svc ds b0 (((b0 :: tl).length : Nat) : Int)
       if r.1.isEmpty then .next r.2 (sid + ds.max_concurrent) (cf + 1)
       else .next { r.2 with fragments := ingestList r.2.fragments r.1 }
         (sid + ds.max_concurrent) 0) := by
  unfold phase3Step
  rw [hc, hf]
  simp [hcf]

theorem phase3Step_exit_complete (svc : Int → HttpOutcome) (ds : DecoderState)
    (sid : Int) (cf : Nat) (hc : is_puzzle_complete ds.fragments = .ok true) :
    phase3Step svc ds sid cf = .exit ds := by
  unfold phase3Step
  rw [hc]
  simp

theorem phase3Step_exit_cf (svc : Int → HttpOutcome) (ds : DecoderState)
    (sid : Int) (cf : Nat) (c : Bool)
    (hc : is_puzzle_complete ds.fragments = .ok c) (hcf : ¬ cf < 100) :
    phase3Step svc ds sid cf = .exit ds := by
  unfold phase3Step
  rw [hc]
  simp [hcf]

theorem phase3Run_succ (svc : Int → HttpOutcome) (fuel : Nat)
    (ds : DecoderState) (sid : Int) (cf : Nat) :
    phase3Run svc (fuel + 1) ds sid cf =
      (match phase3Step svc ds sid cf with
       | .err e => .error e
       | .exit ds' => .ok (some ds')
       | .next ds' sid' cf' => phase3Run svc fuel ds' sid' cf') := rfl

/-! ### C1 and C9 -/

/-- C1: `fetch_batch` does not probe the members of the batch it was
handed — it probes the contiguous identifier run starting at the batch's
first element.  For the Discovering sample `[5, 100]` (one batch), the
identifiers actually dispatched are 5 and 6: identifier 100, a member of
the batch, is never probed. -/
theorem C1_contiguous_dispatch :
    fetchBatchIds 5 2 = [5, 6] ∧
    phase1 svcNotFound [5, 100] initState =
      .ok (.cont { fragments := [], seen_ids := [], max_concurrent := 30,
                   requested := [5, 6] }) ∧
    (100 : Int) ∉
      ({ fragments := [], seen_ids := [], max_concurrent := 30,
         requested := [5, 6] } : DecoderState).requested := by
  refine ⟨rfl, rfl, ?_⟩
  decide

theorem phase3Step_stNeg (sid : Int) :
    phase3Step svcNotFound stNeg sid 0 = .next stNeg (sid + -5) 0 := by
  have hmc : stNeg.max_concurrent = -5 := rfl
  have hf : (intRange sid (sid + stNeg.max_concurrent)).filter
      (fun fid => !(decide (fid ∈ stNeg.seen_ids))) = [] := by
    rw [hmc, intRange_empty sid (sid + -5) (by omega)]
    rfl
  have := phase3Step_skip svcNotFound stNeg sid 0 rfl (by omega) hf
  rw [this, hmc]

theorem phase3Run_stNeg (fuel : Nat) (sid : Int) :
    phase3Run svcNotFound fuel stNeg sid 0 = .ok none := by
  induction fuel generalizing sid with
  | zero => rfl
  | succ n ih =>
    rw [phase3Run_succ, phase3Step_stNeg sid]
    exact ih (sid + -5)

/-- C9: no configuration validation exists.  With the invalid concurrency
limit -5 the Discovering and GapFilling phases silently degenerate to
no-ops and the ExtendedSearch loop skips empty windows forever — the
strategy exhausts every fuel bound without raising any error and without
issuing a single network request (the state, including the request trace,
never changes), contradicting eager rejection. -/
theorem C9_no_validation :
    (∀ fuel, smart_search_strategy svcNotFound sample50 fuel stNeg = .ok none) ∧
    (∀ sid : Int, phase3Step svcNotFound stNeg sid 0 = .next stNeg (sid + -5) 0) ∧
    stNeg.requested = [] := by
  refine ⟨?_, phase3Step_stNeg, rfl⟩
  intro fuel
  have h1 : smart_search_strategy svcNotFound sample50 fuel stNeg =
      phase3Run svcNotFound fuel stNeg 1 0 := rfl
  rw [h1, phase3Run_stNeg]

/-! ### Completeness characterization -/

theorem allInt_of_B (m : List (JVal × Fragment)) (h : allIntKeysB m = true) :
    ∀ p ∈ m, ∃ n, p.1 = JVal.int n := by
  intro p hp
  have := (List.all_eq_true.mp h) p hp
  cases hk : p.1 with
  | int n => exact ⟨n, rfl⟩
  | str s => rw [hk] at this; cases this

theorem strTexts_of_B (m : List (JVal × Fragment)) (h : strTextsB m = true) :
    ∀ p ∈ m, ∃ s, p.2.text = JVal.str s := by
  intro p hp
  have := (List.all_eq_true.mp h) p hp
  cases hk : p.2.text with
  | int n => rw [hk] at this; cases this
  | str s => exact ⟨s, rfl⟩

theorem pyMaxList_go (xs : List JVal) (x : JVal) (nx : Int) (hx : x = .int nx)
    (h : ∀ v ∈ xs, ∃ n, v = JVal.int n) :
    (xs.foldlM (fun m y => do
      let b ← pyGtJ y m
      pure (if b then y else m)) x : Except PyErr JVal) =
      .ok (.int ((xs.map jvalInt).foldl max nx)) := by
  induction xs generalizing x nx with
  | nil => rw [hx]; rfl
  | cons y ys ih =>
    obtain ⟨ny, hy⟩ := h y (List.mem_cons_self y ys)
    have hstep : (do
        let b ← pyGtJ y x
        pure (if b then y else x) : Except PyErr JVal) = .ok (.int (max nx ny)) := by
      rw [hx, hy]
      show Except.ok (if (decide (nx < ny)) then JVal.int ny else JVal.int nx) = _
      by_cases hlt : nx < ny
      · simp [hlt, max_eq_right (le_of_lt hlt)]
      · simp [hlt, max_eq_left (by omega : ny ≤ nx)]
    rw [List.foldlM_cons, hstep]
    show (ys.foldlM _ (JVal.int (max nx ny)) : Except PyErr JVal) = _
    rw [ih (.int (max nx ny)) (max nx ny) rfl
      (fun v hv => h v (List.mem_cons_of_mem y hv))]
    have hmap : (y :: ys).map jvalInt = ny :: ys.map jvalInt := by
      rw [List.map_cons, hy]
      rfl
    rw [hmap, List.foldl_cons]

theorem pyMaxList_ints (l : List JVal) (h : ∀ v ∈ l, ∃ n, v = JVal.int n)
    (hne : l ≠ []) :
    pyMaxList l = .ok (.int (listMax1 (l.map jvalInt))) := by
  cases l with
  | nil => exact absurd rfl hne
  | cons x xs =>
    obtain ⟨nx, hx⟩ := h x (List.mem_cons_self x xs)
    show (xs.foldlM _ x : Except PyErr JVal) = _
    rw [pyMaxList_go xs x nx hx (fun v hv => h v (List.mem_cons_of_mem x hv))]
    rw [List.map_cons, hx]
    rfl

theorem keyInts_eq_map (m : List (JVal × Fragment)) :
    keyInts m = (storeKeys m).map jvalInt := by
  rw [keyInts, storeKeys, List.map_map]
  rfl

theorem is_complete_ints (m : List (JVal × Fragment))
    (hk : allIntKeysB m = true) (hne : m ≠ []) :
    is_puzzle_complete m =
      .ok ((intRange 0 (maxKeyInt m + 1)).all
        (fun i => decide (hasKey m (.int i)))) := by
  have hkeys : ∀ v ∈ storeKeys m, ∃ n, v = JVal.int n := by
    intro v hv
    rw [storeKeys] at hv
    obtain ⟨p, hp, rfl⟩ := List.mem_map.mp hv
    exact allInt_of_B m hk p hp
  have hknil : storeKeys m ≠ [] := by
    intro hcon
    rw [storeKeys] at hcon
    exact hne (List.map_eq_nil_iff.mp hcon)
  have hmax := pyMaxList_ints (storeKeys m) hkeys hknil
  rw [is_puzzle_complete, if_neg (by simpa [List.isEmpty_iff] using hne)]
  rw [hmax]
  show (do
    let stop ← pyAddJ (.int (listMax1 ((storeKeys m).map jvalInt))) (.int 1)
    let r ← pyRange1 stop
    (.ok (r.all (fun i => decide (hasKey m (.int i)))) : Except PyErr Bool)) = _
  rw [maxKeyInt, keyInts_eq_map]
  rfl

/-- C2: for a store whose keys are all integers, the completeness check
succeeds and is true exactly when the store is non-empty and every integer
from 0 up to the maximum held index is present as a key. -/
theorem C2_completeness_iff (m : List (JVal × Fragment))
    (hk : allIntKeysB m = true) :
    is_puzzle_complete m = .ok true ↔
      (m ≠ [] ∧ ∀ i : Int, 0 ≤ i → i ≤ maxKeyInt m → hasKey m (.int i)) := by
  by_cases hne : m = []
  · subst hne
    constructor
    · intro h
      cases h
    · intro ⟨h, _⟩
      exact absurd rfl h
  · rw [is_complete_ints m hk hne]
    constructor
    · intro h
      refine ⟨hne, ?_⟩
      intro i h0 h1
      have hall := List.all_eq_true.mp (Except.ok.inj h)
      have hi : i ∈ intRange 0 (maxKeyInt m + 1) := (mem_intRange _ _ _).mpr ⟨h0, by omega⟩
      exact of_decide_eq_true (hall i hi)
    · intro ⟨_, h⟩
      have : (intRange 0 (maxKeyInt m + 1)).all
          (fun i => decide (hasKey m (.int i))) = true := by
        apply List.all_eq_true.mpr
        intro i hi
        obtain ⟨h0, h1⟩ := (mem_intRange _ _ _).mp hi
        exact decide_eq_true (h i h0 (by omega))
      rw [this]

/-- Witness for C2: the store `{0,1,2}` built out of insertion order is
complete; the store `{0,2}` with a gap at 1 is not. -/
theorem C2_completeness_iff_witness :
    allIntKeysB storeABC = true ∧
    is_puzzle_complete storeABC = .ok true ∧
    is_puzzle_complete store02 = .ok false := by
  refine ⟨rfl, ?_, rfl⟩
  refine (C2_completeness_iff storeABC rfl).mpr ⟨by decide, ?_⟩
  intro i h0 h1
  have hm : maxKeyInt storeABC = 2 := rfl
  rw [hm] at h1
  have : i = 0 ∨ i = 1 ∨ i = 2 := by omega
  rcases this with rfl | rfl | rfl <;> decide

/-! ### Sorting lemmas -/

theorem insertByB_perm {α : Type} (lt : α → α → Bool) (x : α) (l : List α) :
    (insertByB lt x l).Perm (x :: l) := by
  induction l with
  | nil => exact List.Perm.refl _
  | cons y ys ih =>
    rw [insertByB]
    by_cases h : lt x y = true
    · rw [if_pos h]
    · rw [if_neg h]
      exact (ih.cons y).trans (List.Perm.swap x y ys)

theorem sortByB_perm {α : Type} (lt : α → α → Bool) (l : List α) :
    (sortByB lt l).Perm l := by
  induction l with
  | nil => exact List.Perm.refl _
  | cons x xs ih =>
    show (insertByB lt x (sortByB lt xs)).Perm (x :: xs)
    exact (insertByB_perm lt x (sortByB lt xs)).trans (ih.cons x)

theorem mem_insertByB {α : Type} (lt : α → α → Bool) (x a : α) (l : List α) :
    a ∈ insertByB lt x l ↔ a = x ∨ a ∈ l := by
  rw [(insertByB_perm lt x l).mem_iff]
  simp

theorem insertByB_int_sorted (x : Int) (l : List Int)
    (hl : l.Pairwise (fun a b : Int => a < b)) (hx : x ∉ l) :
    (insertByB (fun a b : Int => decide (a < b)) x l).Pairwise
      (fun a b : Int => a < b) := by
  induction l with
  | nil => simp [insertByB]
  | cons y ys ih =>
    rw [insertByB]
    by_cases h : decide (x < y) = true
    · rw [if_pos h]
      have hxy : x < y := of_decide_eq_true h
      refine List.Pairwise.cons ?_ hl
      intro b hb
      rcases List.mem_cons.mp hb with rfl | hb'
      · exact hxy
      · exact hxy.trans ((List.pairwise_cons.mp hl).1 b hb')
    · rw [if_neg h]
      have hyx : y < x := by
        have h1 : ¬ x < y := fun hc => h (decide_eq_true hc)
        have h2 : x ≠ y := fun hc => hx (hc ▸ List.mem_cons_self y ys)
        omega
      refine List.Pairwise.cons ?_ (ih (List.pairwise_cons.mp hl).2
        (fun hc => hx (List.mem_cons_of_mem y hc)))
      intro b hb
      rcases (mem_insertByB _ x b ys).mp hb with rfl | hb'
      · exact hyx
      · exact (List.pairwise_cons.mp hl).1 b hb'

theorem sortedInts_sorted (l : List Int) (h : l.Nodup) :
    (sortedInts l).Pairwise (fun a b : Int => a < b) := by
  induction l with
  | nil => simp [sortedInts, sortByB]
  | cons x xs ih =>
    show (insertByB _ x (sortByB _ xs)).Pairwise _
    have hnd := List.nodup_cons.mp h
    refine insertByB_int_sorted x (sortByB _ xs) (ih hnd.2) ?_
    intro hc
    exact hnd.1 ((sortByB_perm _ xs).mem_iff.mp hc)

theorem sortedInts_perm (l : List Int) : (sortedInts l).Perm l :=
  sortByB_perm _ l

theorem insertByB_map_key (x : JVal × Fragment) (l : List (JVal × Fragment)) :
    keyInts (insertByB keyLtB x l) =
      insertByB (fun a b : Int => decide (a < b)) (jvalInt x.1) (keyInts l) := by
  induction l with
  | nil => rfl
  | cons y ys ih =>
    rw [insertByB]
    by_cases h : keyLtB x y = true
    · rw [if_pos h]
      have h' : decide (jvalInt x.1 < jvalInt y.1) = true := h
      show _ = insertByB _ (jvalInt x.1) (jvalInt y.1 :: keyInts ys)
      rw [insertByB, if_pos h']
      rfl
    · rw [if_neg h]
      have h' : ¬ decide (jvalInt x.1 < jvalInt y.1) = true := h
      show jvalInt y.1 :: keyInts (insertByB keyLtB x ys) = _
      rw [ih]
      show _ = insertByB _ (jvalInt x.1) (jvalInt y.1 :: keyInts ys)
      rw [insertByB, if_neg h']

theorem sortByB_keyInts (m : List (JVal × Fragment)) :
    keyInts (sortByB keyLtB m) = sortedInts (keyInts m) := by
  induction m with
  | nil => rfl
  | cons p ps ih =>
    show keyInts (insertByB keyLtB p (sortByB keyLtB ps)) = _
    rw [insertByB_map_key, ih]
    rfl

theorem pairLt_ints (x q : JVal × Fragment) (nx nq : Int)
    (hx : x.1 = .int nx) (hq : q.1 = .int nq) (hne : x.1 ≠ q.1) :
    pairLt x q = .ok (keyLtB x q) := by
  rw [pairLt, if_neg hne, keyLtB, hx, hq]
  rfl

theorem insOneM_pure (x : JVal × Fragment) (l : List (JVal × Fragment))
    (hx : ∃ n, x.1 = JVal.int n) (hl : ∀ q ∈ l, ∃ n, q.1 = JVal.int n)
    (hne : ∀ q ∈ l, x.1 ≠ q.1) :
    insOneM x l = .ok (insertByB keyLtB x l) := by
  induction l with
  | nil => rfl
  | cons q qs ih =>
    obtain ⟨nx, hxn⟩ := hx
    obtain ⟨nq, hqn⟩ := hl q (List.mem_cons_self q qs)
    rw [insOneM, pairLt_ints x q nx nq hxn hqn (hne q (List.mem_cons_self q qs))]
    rw [insertByB]
    by_cases h : keyLtB x q = true
    · rw [h]
      rfl
    · rw [Bool.eq_false_iff.mpr h]
      show (do
        let r ← insOneM x qs
        (.ok (q :: r) : Except PyErr (List (JVal × Fragment)))) =
        .ok (q :: insertByB keyLtB x qs)
      rw [ih (fun r hr => hl r (List.mem_cons_of_mem q hr))
        (fun r hr => hne r (List.mem_cons_of_mem q hr))]
      rfl

theorem pySortItems_pure (m : List (JVal × Fragment))
    (hl : ∀ q ∈ m, ∃ n, q.1 = JVal.int n) (hnd : keysNodup m) :
    pySortItems m = .ok (sortByB keyLtB m) := by
  induction m with
  | nil => rfl
  | cons p ps ih =>
    have hcons := List.nodup_cons.mp (by simpa [keysNodup, storeKeys_cons] using hnd)
    rw [pySortItems, ih (fun q hq => hl q (List.mem_cons_of_mem p hq))
      (by simpa [keysNodup] using hcons.2)]
    show (do
      let r ← (.ok (sortByB keyLtB ps) : Except PyErr (List (JVal × Fragment)))
      insOneM p r) = _
    have hstep := insOneM_pure p (sortByB keyLtB ps)
      (hl p (List.mem_cons_self p ps))
      (fun q hq => hl q (List.mem_cons_of_mem p ((sortByB_perm keyLtB ps).mem_iff.mp hq)))
      (fun q hq hc => by
        have hq' : q ∈ ps := (sortByB_perm keyLtB ps).mem_iff.mp hq
        exact hcons.1 (by
          rw [hc]
          exact List.mem_map.mpr ⟨q, hq', rfl⟩))
    show insOneM p (sortByB keyLtB ps) = _
    rw [hstep]
    rfl

theorem pyJoin_str (sep : String) (items : List JVal)
    (h : ∀ v ∈ items, ∃ s, v = JVal.str s) :
    pyJoin sep items = .ok (String.intercalate sep (items.map jvalStr)) := by
  have hmap : items.mapM (fun v =>
      match v with
      | .str s => (.ok s : Except PyErr String)
      | .int _ => .error .typeError) = .ok (items.map jvalStr) := by
    induction items with
    | nil => rfl
    | cons v vs ih =>
      obtain ⟨s, hs⟩ := h v (List.mem_cons_self v vs)
      rw [List.mapM_cons, hs, ih (fun w hw => h w (List.mem_cons_of_mem v hw))]
      rfl
  rw [pyJoin, hmap]
  rfl

theorem storeLookup_of_mem_nodup (m : List (JVal × Fragment))
    (p : JVal × Fragment) (hnd : keysNodup m) (hp : p ∈ m) :
    storeLookup m p.1 = some p.2 := by
  induction m with
  | nil => cases hp
  | cons q qs ih =>
    have hcons := List.nodup_cons.mp (by simpa [keysNodup, storeKeys_cons] using hnd)
    rcases List.mem_cons.mp hp with rfl | hp'
    · rw [storeLookup_cons, if_pos rfl]
    · have hne : q.1 ≠ p.1 := by
        intro hc
        exact hcons.1 (hc ▸ List.mem_map.mpr ⟨p, hp', rfl⟩)
      rw [storeLookup_cons, if_neg hne]
      exact ih (by simpa [keysNodup] using hcons.2) hp'

theorem assembled_of_complete (m : List (JVal × Fragment))
    (hc : is_puzzle_complete m = .ok true) (hk : allIntKeysB m = true)
    (ht : strTextsB m = true) (hnd : keysNodup m) :
    get_assembled_message m =
      .ok (String.intercalate sepSpace
        ((sortedInts (keyInts m)).map (textAtI m))) := by
  have hints := allInt_of_B m hk
  have hsort := pySortItems_pure m hints hnd
  rw [get_assembled_message, hc]
  show (do
    let sorted ← pySortItems m
    pyJoin sepSpace (sorted.map (fun p : JVal × Fragment => p.2.text))) = _
  rw [hsort]
  show pyJoin sepSpace
    ((sortByB keyLtB m).map (fun p : JVal × Fragment => p.2.text)) = _
  have hmem : ∀ p ∈ sortByB keyLtB m, p ∈ m :=
    fun p hp => (sortByB_perm keyLtB m).mem_iff.mp hp
  have htexts : ∀ v ∈ (sortByB keyLtB m).map (fun p => p.2.text),
      ∃ s, v = JVal.str s := by
    intro v hv
    obtain ⟨p, hp, rfl⟩ := List.mem_map.mp hv
    exact strTexts_of_B m ht p (hmem p hp)
  rw [pyJoin_str sepSpace ((sortByB keyLtB m).map (fun p => p.2.text)) htexts]
  have hlist : ((sortByB keyLtB m).map (fun p => p.2.text)).map jvalStr =
      (sortedInts (keyInts m)).map (textAtI m) := by
    rw [← sortByB_keyInts, keyInts, List.map_map, List.map_map]
    apply List.map_congr_left
    intro p hp
    obtain ⟨n, hn⟩ := hints p (hmem p hp)
    show jvalStr p.2.text = textAtI m (jvalInt p.1)
    have hkey : JVal.int (jvalInt p.1) = p.1 := by rw [hn]; rfl
    rw [textAtI, hkey, storeLookup_of_mem_nodup m p hnd (hmem p hp)]
  rw [hlist]

/-- C3: for every store with integer keys and string texts (unique keys):
when incomplete, assembly returns the empty-string sentinel; when complete,
it returns the fragment texts in ascending index order joined with a
single space — a function of the store contents only, hence independent of
insertion order. -/
theorem C3_assembly (m : List (JVal × Fragment)) (hk : allIntKeysB m = true)
    (ht : strTextsB m = true) (hnd : keysNodup m) :
    (is_puzzle_complete m = .ok false → get_assembled_message m = .ok "") ∧
    (is_puzzle_complete m = .ok true →
      get_assembled_message m =
        .ok (String.intercalate sepSpace
          ((sortedInts (keyInts m)).map (textAtI m)))) := by
  constructor
  · intro hc
    rw [get_assembled_message, hc]
    rfl
  · intro hc
    exact assembled_of_complete m hc hk ht hnd

/-- Witness for C3: the fragments "A","B","C" at 0,1,2 ingested out of
order assemble to "A B C", and the single-fragment store at index 0
assembles to "Hello" with no separator. -/
theorem C3_assembly_witness :
    allIntKeysB storeABC = true ∧ strTextsB storeABC = true ∧
    keysNodup storeABC ∧
    get_assembled_message storeABC = .ok "A B C" ∧
    get_assembled_message store0 = .ok "Hello" := by
  refine ⟨rfl, rfl, by decide, ?_, ?_⟩
  · rw [(C3_assembly storeABC rfl rfl (by decide)).2 rfl]
    decide
  · rw [(C3_assembly store0 rfl rfl (by decide)).2 rfl]
    decide

/-- C10: the parsed index is indeed never validated: a non-empty store
whose integer keys are all negative has an empty check range `[0, M]`, so
the completeness check accepts it and assembly joins its fragments — e.g.
a store holding only index -1 is "complete" and assembles to that
fragment's text. -/
theorem C10_negative_index (m : List (JVal × Fragment)) (hne : m ≠ [])
    (hk : allIntKeysB m = true) (hmax : maxKeyInt m < 0)
    (ht : strTextsB m = true) (hnd : keysNodup m) :
    is_puzzle_complete m = .ok true ∧
    get_assembled_message m =
      .ok (String.intercalate sepSpace
        ((sortedInts (keyInts m)).map (textAtI m))) := by
  have hcomplete : is_puzzle_complete m = .ok true := by
    rw [is_complete_ints m hk hne, intRange_empty 0 (maxKeyInt m + 1) (by omega)]
    rfl
  exact ⟨hcomplete, assembled_of_complete m hcomplete hk ht hnd⟩

/-- Witness for C10: the store holding only index -1 is judged complete
and assembles to "z". -/
theorem C10_negative_index_witness :
    storeNeg ≠ [] ∧ maxKeyInt storeNeg < 0 ∧
    is_puzzle_complete storeNeg = .ok true ∧
    get_assembled_message storeNeg = .ok "z" := by
  have h := C10_negative_index storeNeg (by decide) rfl (by decide) rfl (by decide)
  refine ⟨by decide, by decide, h.1, ?_⟩
  rw [h.2]
  decide

/-! ### Batch fold lemmas and Phase 3 termination -/

theorem fbStep_some (svc : Int → HttpOutcome) (acc : List Fragment × DecoderState)
    (fid : Int) (f : Fragment) (st' : DecoderState)
    (h : fetch_fragment svc acc.2 fid = (some f, st')) :
    fbStep svc acc fid = (acc.1 ++ [f], st') := by
  rw [fbStep, h]

theorem fbStep_none (svc : Int → HttpOutcome) (acc : List Fragment × DecoderState)
    (fid : Int) (st' : DecoderState)
    (h : fetch_fragment svc acc.2 fid = (none, st')) :
    fbStep svc acc fid = (acc.1, st') := by
  rw [fbStep, h]

theorem fetch_fragment_fails (svc : Int → HttpOutcome) (st : DecoderState)
    (fid : Int) (h : parseOutcome (svc fid) = none) :
    ∃ req, fetch_fragment svc st fid = (none, { st with requested := req }) := by
  by_cases hs : fid ∈ st.seen_ids
  · exact ⟨st.requested, by rw [fetch_fragment_seen svc st fid hs]⟩
  · exact ⟨st.requested ++ [fid], by rw [fetch_fragment_absent svc st fid hs h]⟩

theorem fbFold_fails (svc : Int → HttpOutcome) (hsvc : svcFails svc)
    (ids : List Int) :
    ∀ st : DecoderState, ∃ req,
      ids.foldl (fbStep svc) ([], st) = ([], { st with requested := req }) := by
  induction ids with
  | nil => exact fun st => ⟨st.requested, rfl⟩
  | cons i is ih =>
    intro st
    obtain ⟨r1, h1⟩ := fetch_fragment_fails svc st i (hsvc i)
    obtain ⟨req, h2⟩ := ih { st with requested := r1 }
    refine ⟨req, ?_⟩
    rw [List.foldl_cons, fbStep_none svc ([], st) i { st with requested := r1 } h1, h2]

theorem fetch_batch_fails (svc : Int → HttpOutcome) (hsvc : svcFails svc)
    (st : DecoderState) (start_id batch_size : Int) :
    ∃ req, fetch_batch svc st start_id batch_size =
      ([], { st with requested := req }) :=
  fbFold_fails svc hsvc (fetchBatchIds start_id batch_size) st

theorem init_le_foldl_max (l : List Int) : ∀ a : Int, a ≤ l.foldl max a := by
  induction l with
  | nil => intro a; exact le_refl a
  | cons x xs ih =>
    intro a
    rw [List.foldl_cons]
    exact le_trans (le_max_left a x) (ih (max a x))

theorem mem_le_foldl_max (l : List Int) : ∀ (a x : Int), x ∈ l → x ≤ l.foldl max a := by
  induction l with
  | nil => intro a x h; cases h
  | cons y ys ih =>
    intro a x h
    rcases List.mem_cons.mp h with rfl | h'
    · rw [List.foldl_cons]
      exact le_trans (le_max_right a x) (init_le_foldl_max ys (max a x))
    · rw [List.foldl_cons]
      exact ih (max a y) x h'

theorem le_listMax0 (l : List Int) (x : Int) (h : x ∈ l) : x ≤ listMax0 l :=
  mem_le_foldl_max l 0 x h

/-- C7 (amended): ExtendedSearch terminates whenever the remote service
yields no further fragments: under a fragmentless service every probed
window raises the consecutive-failure counter toward the give-up ceiling
100, every window advances the cursor, and a window can only be skipped
while the cursor is below the largest seen identifier — so the loop exits
within the explicit fuel bound `p3Measure`. -/
theorem C7_extended_search_terminates (svc : Int → HttpOutcome)
    (hsvc : svcFails svc) :
    ∀ (n : Nat) (ds : DecoderState) (sid : Int) (cf : Nat),
      is_puzzle_complete ds.fragments = .ok false →
      ds.max_concurrent = 30 →
      p3Measure ds sid cf ≤ n →
      ∃ ds', phase3Run svc (n + 1) ds sid cf = .ok (some ds') := by
  intro n
  induction n with
  | zero =>
    intro ds sid cf hc hmc hm
    have hcf : ¬ cf < 100 := by
      rw [p3Measure] at hm
      omega
    refine ⟨ds, ?_⟩
    rw [phase3Run_succ, phase3Step_exit_cf svc ds sid cf false hc hcf]
  | succ n ih =>
    intro ds sid cf hc hmc hm
    by_cases hcf : cf < 100
    · cases hbatch : (intRange sid (sid + ds.max_concurrent)).filter
        (fun fid => !(decide (fid ∈ ds.seen_ids))) with
      | nil =>
        have hstep := phase3Step_skip svc ds sid cf hc hcf hbatch
        have hseen : sid + 29 ∈ ds.seen_ids := by
          have hmem : sid + 29 ∈ intRange sid (sid + ds.max_concurrent) := by
            rw [hmc]
            exact (mem_intRange _ _ _).mpr ⟨by omega, by omega⟩
          have := List.filter_eq_nil_iff.mp hbatch _ hmem
          simpa using this
        have hbound : sid + 29 ≤ listMax0 ds.seen_ids :=
          le_listMax0 ds.seen_ids (sid + 29) hseen
        have hm' : p3Measure ds (sid + ds.max_concurrent) cf ≤ n := by
          rw [p3Measure] at hm ⊢
          rw [hmc]
          omega
        obtain ⟨ds', hrun⟩ := ih ds (sid + ds.max_concurrent) cf hc hmc hm'
        exact ⟨ds', by rw [phase3Run_succ, hstep]; exact hrun⟩
      | cons b0 tl =>
        obtain ⟨req, hfb⟩ := fetch_batch_fails svc hsvc ds b0 (((b0 :: tl).length : Nat) : Int)
        have hstep : phase3Step svc ds sid cf =
            .next { ds with requested := req } (sid + ds.max_concurrent) (cf + 1) := by
          rw [phase3Step_probe svc ds sid cf hc hcf b0 tl hbatch]
          rw [hfb]
          rfl
        have hm' : p3Measure { ds with requested := req }
            (sid + ds.max_concurrent) (cf + 1) ≤ n := by
          rw [p3Measure] at hm ⊢
          rw [hmc]
          show 101 * (100 - (cf + 1)) + (listMax0 ds.seen_ids + 1 - (sid + 30)).toNat ≤ n
          omega
        obtain ⟨ds', hrun⟩ := ih { ds with requested := req }
          (sid + ds.max_concurrent) (cf + 1) hc hmc hm'
        exact ⟨ds', by rw [phase3Run_succ, hstep]; exact hrun⟩
    · refine ⟨ds, ?_⟩
      rw [phase3Run_succ, phase3Step_exit_cf svc ds sid cf false hc hcf]

/-- Witness for C7 (amended): under the all-timeout service, Phase 3 from
the fresh state terminates within the computed fuel bound. -/
theorem C7_extended_search_terminates_witness :
    svcFails svcTimeoutAll ∧
    ∃ ds', phase3Run svcTimeoutAll (p3Measure initState 1 0 + 1) initState 1 0 =
      .ok (some ds') :=
  ⟨fun _ => rfl,
   C7_extended_search_terminates svcTimeoutAll (fun _ => rfl)
     (p3Measure initState 1 0) initState 1 0 rfl rfl (le_refl _)⟩

/-! ### Phase 3 divergence under an adversarial service -/

theorem parseOutcome_adv (fid : Int) :
    parseOutcome (svcAdv fid) =
      some { id := .int fid, index := .int 1, text := .str "x" } := rfl

theorem fetch_fragment_core (svc : Int → HttpOutcome) (st : DecoderState)
    (fid : Int) :
    (fetch_fragment svc st fid).2.fragments = st.fragments ∧
    (fetch_fragment svc st fid).2.max_concurrent = st.max_concurrent := by
  rw [fetch_fragment]
  by_cases h : fid ∈ st.seen_ids
  · rw [if_pos h]
    exact ⟨rfl, rfl⟩
  · rw [if_neg h]
    cases parseOutcome (svc fid) <;> exact ⟨rfl, rfl⟩

theorem fbFold_core (svc : Int → HttpOutcome) (ids : List Int) :
    ∀ acc : List Fragment × DecoderState,
      ((ids.foldl (fbStep svc) acc).2).fragments = acc.2.fragments ∧
      ((ids.foldl (fbStep svc) acc).2).max_concurrent = acc.2.max_concurrent := by
  induction ids with
  | nil => exact fun acc => ⟨rfl, rfl⟩
  | cons i is ih =>
    intro acc
    rw [List.foldl_cons]
    have hcore := fetch_fragment_core svc acc.2 i
    have hstep : (fbStep svc acc i).2.fragments = acc.2.fragments ∧
        (fbStep svc acc i).2.max_concurrent = acc.2.max_concurrent := by
      rcases hf : fetch_fragment svc acc.2 i with ⟨res, st'⟩
      rw [hf] at hcore
      cases res with
      | none => rw [fbStep_none svc acc i st' hf]; exact hcore
      | some f => rw [fbStep_some svc acc i f st' hf]; exact hcore
    obtain ⟨h1, h2⟩ := ih (fbStep svc acc i)
    exact ⟨h1.trans hstep.1, h2.trans hstep.2⟩

theorem fbFold_results_append (svc : Int → HttpOutcome) (ids : List Int) :
    ∀ (fr : List Fragment) (st : DecoderState),
      (ids.foldl (fbStep svc) (fr, st)).1 =
        fr ++ (ids.foldl (fbStep svc) ([], st)).1 := by
  induction ids with
  | nil => intro fr st; simp
  | cons i is ih =>
    intro fr st
    rw [List.foldl_cons, List.foldl_cons]
    rcases hf : fetch_fragment svc st i with ⟨res, st'⟩
    cases res with
    | none =>
      rw [fbStep_none svc (fr, st) i st' hf, fbStep_none svc ([], st) i st' hf]
      exact ih fr st'
    | some f =>
      rw [fbStep_some svc (fr, st) i f st' hf, fbStep_some svc ([], st) i f st' hf]
      rw [ih (fr ++ [f]) st', ih ([] ++ [f]) st']
      simp

theorem fbFold_adv_index (ids : List Int) :
    ∀ acc : List Fragment × DecoderState,
      (∀ f ∈ acc.1, f.index = JVal.int 1) →
      ∀ f ∈ (ids.foldl (fbStep svcAdv) acc).1, f.index = JVal.int 1 := by
  induction ids with
  | nil => exact fun acc h => h
  | cons i is ih =>
    intro acc hacc
    rw [List.foldl_cons]
    refine ih (fbStep svcAdv acc i) ?_
    intro f hf
    rcases hfe : fetch_fragment svcAdv acc.2 i with ⟨res, st'⟩
    cases res with
    | none =>
      rw [fbStep_none svcAdv acc i st' hfe] at hf
      exact hacc f hf
    | some g =>
      have hg : g.index = JVal.int 1 := by
        by_cases hs : i ∈ acc.2.seen_ids
        · rw [fetch_fragment_seen svcAdv acc.2 i hs] at hfe
          cases hfe
        · rw [fetch_fragment_ok svcAdv acc.2 i hs
            { id := .int i, index := .int 1, text := .str "x" }
            (parseOutcome_adv i)] at hfe
          have := congrArg Prod.fst hfe
          simp at this
          rw [← this]
      rw [fbStep_some svcAdv acc i g st' hfe] at hf
      rcases List.mem_append.mp hf with hf' | hf'
      · exact hacc f hf'
      · rw [List.mem_singleton.mp hf']
        exact hg

theorem fetch_batch_adv_nonempty (ds : DecoderState) (b0 : Int) (k : Nat)
    (hk : 1 ≤ k) (hb0 : b0 ∉ ds.seen_ids) :
    (fetch_batch svcAdv ds b0 (k : Int)).1 ≠ [] := by
  have hids : fetchBatchIds b0 (k : Int) = b0 :: intRange (b0 + 1) (b0 + k) := by
    rw [fetchBatchIds]
    exact intRange_cons b0 (b0 + k) (by omega)
  rw [fetch_batch, hids, List.foldl_cons]
  have hfe : fetch_fragment svcAdv ds b0 =
      (some { id := .int b0, index := .int 1, text := .str "x" },
       { ds with seen_ids := b0 :: ds.seen_ids, requested := ds.requested ++ [b0] }) :=
    fetch_fragment_ok svcAdv ds b0 hb0 _ (parseOutcome_adv b0)
  rw [fbStep_some svcAdv ([], ds) b0 _ _ hfe]
  rw [fbFold_results_append]
  simp

theorem mem_storeKeys_ingest (m : List (JVal × Fragment)) (fs : List Fragment)
    (k : JVal) :
    k ∈ storeKeys (ingestList m fs) →
      k ∈ storeKeys m ∨ ∃ f ∈ fs, k = f.index := by
  induction fs generalizing m with
  | nil => exact fun h => Or.inl h
  | cons f fs ih =>
    intro h
    rw [ingestList_cons] at h
    rcases ih (storeInsert m f.index f) h with h' | h'
    · rcases (mem_storeKeys_insert m f.index f k).mp h' with h'' | h''
      · exact Or.inr ⟨f, List.mem_cons_self f fs, h''⟩
      · exact Or.inl h''
    · obtain ⟨g, hg, hk⟩ := h'
      exact Or.inr ⟨g, List.mem_cons_of_mem f hg, hk⟩

theorem foldl_max_ones (xs : List Int) (h : ∀ y ∈ xs, y = 1) :
    xs.foldl max 1 = 1 := by
  induction xs with
  | nil => rfl
  | cons y ys ih =>
    rw [List.foldl_cons, h y (List.mem_cons_self y ys)]
    exact ih (fun z hz => h z (List.mem_cons_of_mem y hz))

theorem is_complete_ones (m : List (JVal × Fragment)) (hne : m ≠ [])
    (h : ∀ k ∈ storeKeys m, k = JVal.int 1) :
    is_puzzle_complete m = .ok false := by
  have hk : allIntKeysB m = true := by
    apply List.all_eq_true.mpr
    intro p hp
    have h1 : p.1 = JVal.int 1 := h p.1 (List.mem_map.mpr ⟨p, hp, rfl⟩)
    rw [h1]
  have hmax : maxKeyInt m = 1 := by
    rw [maxKeyInt]
    cases hm : m with
    | nil => exact absurd hm hne
    | cons p ps =>
      have h1 : p.1 = JVal.int 1 := h p.1 (by rw [hm]; exact List.mem_map.mpr ⟨p, List.mem_cons_self p ps, rfl⟩)
      show listMax1 ((p :: ps).map (fun q => jvalInt q.1)) = 1
      rw [List.map_cons, h1]
      show (ps.map (fun q => jvalInt q.1)).foldl max 1 = 1
      apply foldl_max_ones
      intro z hz
      obtain ⟨q, hq, rfl⟩ := List.mem_map.mp hz
      have : q.1 = JVal.int 1 := h q.1 (by rw [hm]; exact List.mem_map.mpr ⟨q, List.mem_cons_of_mem p hq, rfl⟩)
      rw [this]
      rfl
  rw [is_complete_ints m hk hne, hmax]
  have h0 : ¬ hasKey m (JVal.int 0) := by
    intro hc
    exact (by decide : JVal.int 0 ≠ JVal.int 1) (h _ hc)
  have hrange : intRange 0 (1 + 1) = [0, 1] := rfl
  rw [hrange]
  simp [List.all_cons, decide_eq_false h0]

theorem phase3Step_adv (ds : DecoderState) (sid : Int)
    (hinv : ∀ k ∈ storeKeys ds.fragments, k = JVal.int 1)
    (hmc : ds.max_concurrent = 30) :
    ∃ ds', phase3Step svcAdv ds sid 0 = .next ds' (sid + ds.max_concurrent) 0 ∧
      (∀ k ∈ storeKeys ds'.fragments, k = JVal.int 1) ∧
      ds'.max_concurrent = 30 := by
  have hc : is_puzzle_complete ds.fragments = .ok false := by
    by_cases hne : ds.fragments = []
    · rw [hne]
      rfl
    · exact is_complete_ones ds.fragments hne hinv
  cases hbatch : (intRange sid (sid + ds.max_concurrent)).filter
      (fun fid => !(decide (fid ∈ ds.seen_ids))) with
  | nil =>
    exact ⟨ds, phase3Step_skip svcAdv ds sid 0 hc (by omega) hbatch, hinv, hmc⟩
  | cons b0 tl =>
    have hb0 : b0 ∉ ds.seen_ids := by
      have hmemf : b0 ∈ (intRange sid (sid + ds.max_concurrent)).filter
          (fun fid => !(decide (fid ∈ ds.seen_ids))) := by
        rw [hbatch]
        exact List.mem_cons_self b0 tl
      have := (List.mem_filter.mp hmemf).2
      simpa using this
    rcases hfb : fetch_batch svcAdv ds b0 (((b0 :: tl).length : Nat) : Int)
      with ⟨frs, ds₂⟩
    have hfrs : frs ≠ [] := by
      have := fetch_batch_adv_nonempty ds b0 (b0 :: tl).length (by simp) hb0
      rw [hfb] at this
      exact this
    have hcore : ds₂.fragments = ds.fragments ∧ ds₂.max_concurrent = ds.max_concurrent := by
      have := fbFold_core svcAdv (fetchBatchIds b0 (((b0 :: tl).length : Nat) : Int)) ([], ds)
      rw [show (fetchBatchIds b0 (((b0 :: tl).length : Nat) : Int)).foldl (fbStep svcAdv) ([], ds) =
        fetch_batch svcAdv ds b0 (((b0 :: tl).length : Nat) : Int) from rfl, hfb] at this
      exact this
    have hidx : ∀ f ∈ frs, f.index = JVal.int 1 := by
      have := fbFold_adv_index (fetchBatchIds b0 (((b0 :: tl).length : Nat) : Int)) ([], ds)
        (fun f hf => absurd hf (List.not_mem_nil f))
      rw [show (fetchBatchIds b0 (((b0 :: tl).length : Nat) : Int)).foldl (fbStep svcAdv) ([], ds) =
        fetch_batch svcAdv ds b0 (((b0 :: tl).length : Nat) : Int) from rfl, hfb] at this
      exact this
    refine ⟨{ ds₂ with fragments := ingestList ds₂.fragments frs }, ?_, ?_, hcore.2.trans hmc⟩
    · rw [phase3Step_probe svcAdv ds sid 0 hc (by omega) b0 tl hbatch]
      rw [hfb]
      cases hfrs2 : frs with
      | nil => exact absurd hfrs2 hfrs
      | cons g gs => rfl
    · intro k hk
      rcases mem_storeKeys_ingest ds₂.fragments frs k hk with h' | h'
      · rw [hcore.1] at h'
        exact hinv k h'
      · obtain ⟨f, hf, rfl⟩ := h'
        exact hidx f hf

theorem phase3Run_adv (fuel : Nat) :
    ∀ (ds : DecoderState) (sid : Int),
      (∀ k ∈ storeKeys ds.fragments, k = JVal.int 1) →
      ds.max_concurrent = 30 →
      phase3Run svcAdv fuel ds sid 0 = .ok none := by
  induction fuel with
  | zero => intro ds sid _ _; rfl
  | succ n ih =>
    intro ds sid hinv hmc
    obtain ⟨ds', hstep, hinv', hmc'⟩ := phase3Step_adv ds sid hinv hmc
    rw [phase3Run_succ, hstep]
    exact ih ds' (sid + ds.max_concurrent) hinv' hmc'

/-- C7 (counterexample): the ExtendedSearch loop does *not* terminate for
every behaviour of the remote service.  Against a service that answers
every probe with a fresh fragment at index 1, every probed window yields
fragments (resetting the consecutive-failure counter to zero) while the
store never contains index 0, so the completeness invariant never holds
and the loop exhausts every fuel bound — it runs forever. -/
theorem C7_counterexample : phase3RunsForever svcAdv initState 1 0 := by
  intro fuel
  exact phase3Run_adv fuel initState 1
    (fun k hk => absurd hk (List.not_mem_nil k)) rfl

/-! ### Solve-level lemmas -/

theorem except_bind_ok {α β : Type} (a : α) (f : α → Except PyErr β) :
    (Except.ok a >>= f) = f a := rfl

theorem except_bind_err {α β : Type} (e : PyErr) (f : α → Except PyErr β) :
    ((Except.error e : Except PyErr α) >>= f) = .error e := rfl

theorem phase3Step_probe_shape (svc : Int → HttpOutcome) (ds : DecoderState)
    (sid : Int) (cf : Nat) (hc : is_puzzle_complete ds.fragments = .ok false)
    (hcf : cf < 100) (b0 : Int) (tl : List Int)
    (hf : (intRange sid (sid + ds.max_concurrent)).filter
      (fun fid => !(decide (fid ∈ ds.seen_ids))) = b0 :: tl) :
    ∃ ds' cf', phase3Step svc ds sid cf = .next ds' (sid + ds.max_concurrent) cf' := by
  rw [phase3Step_probe svc ds sid cf hc hcf b0 tl hf]
  rcases hfb : fetch_batch svc ds b0 (((b0 :: tl).length : Nat) : Int) with ⟨frs, ds₂⟩
  cases frs with
  | nil => exact ⟨ds₂, cf + 1, rfl⟩
  | cons g gs =>
    exact ⟨{ ds₂ with fragments := ingestList ds₂.fragments (g :: gs) }, 0, rfl⟩

theorem phase3Step_exit_inv (svc : Int → HttpOutcome) (ds : DecoderState)
    (sid : Int) (cf : Nat) (ds₂ : DecoderState)
    (h : phase3Step svc ds sid cf = .exit ds₂) :
    ds₂ = ds ∧ ∃ c, is_puzzle_complete ds.fragments = .ok c := by
  cases hc : is_puzzle_complete ds.fragments with
  | error e =>
    have hstep : phase3Step svc ds sid cf = .err e := by
      rw [phase3Step, hc]
    rw [hstep] at h
    cases h
  | ok c =>
    cases c with
    | true =>
      rw [phase3Step_exit_complete svc ds sid cf hc] at h
      cases h
      exact ⟨rfl, true, rfl⟩
    | false =>
      by_cases hcf : cf < 100
      · cases hbatch : (intRange sid (sid + ds.max_concurrent)).filter
          (fun fid => !(decide (fid ∈ ds.seen_ids))) with
        | nil =>
          rw [phase3Step_skip svc ds sid cf hc hcf hbatch] at h
          cases h
        | cons b0 tl =>
          obtain ⟨ds', cf', hstep⟩ :=
            phase3Step_probe_shape svc ds sid cf hc hcf b0 tl hbatch
          rw [hstep] at h
          cases h
      · rw [phase3Step_exit_cf svc ds sid cf false hc hcf] at h
        cases h
        exact ⟨rfl, false, rfl⟩

theorem phase3Run_some (svc : Int → HttpOutcome) :
    ∀ (fuel : Nat) (ds : DecoderState) (sid : Int) (cf : Nat)
      (ds' : DecoderState),
      phase3Run svc fuel ds sid cf = .ok (some ds') →
      ∃ c, is_puzzle_complete ds'.fragments = .ok c := by
  intro fuel
  induction fuel with
  | zero =>
    intro ds sid cf ds' h
    cases h
  | succ n ih =>
    intro ds sid cf ds' h
    rw [phase3Run_succ] at h
    cases hstep : phase3Step svc ds sid cf with
    | err e => rw [hstep] at h; cases h
    | exit ds₂ =>
      rw [hstep] at h
      obtain ⟨rfl, c, hc⟩ := phase3Step_exit_inv svc ds sid cf ds₂ hstep
      have h' : ds₂ = ds' := by
        have := h
        simp at this
        exact this
      rw [← h']
      exact ⟨c, hc⟩
    | next ds₂ sid₂ cf₂ =>
      rw [hstep] at h
      exact ih ds₂ sid₂ cf₂ ds' h

theorem phase1Loop_done (svc : Int → HttpOutcome) (sample : List Int) (bs : Int) :
    ∀ (idxs : List Int) (st st' : DecoderState),
      phase1Loop svc sample bs idxs st = .ok (.done st') →
      is_puzzle_complete st'.fragments = .ok true := by
  intro idxs
  induction idxs with
  | nil =>
    intro st st' h
    rw [phase1Loop] at h
    simp at h
  | cons i rest ih =>
    intro st st' h
    rw [phase1Loop] at h
    cases hb : pyGet0 (pySlice sample i (i + bs)) with
    | error e =>
      rw [hb, except_bind_err] at h
      cases h
    | ok b0 =>
      rw [hb, except_bind_ok] at h
      rcases hfb : fetch_batch svc st b0
        (((pySlice sample i (i + bs)).length : Nat) : Int) with ⟨frs, st₁⟩
      rw [hfb] at h
      have h2 : ((is_puzzle_complete
            ({ st₁ with fragments := ingestList st₁.fragments frs }).fragments) >>=
          (fun c =>
            if c then
              Except.ok (PhaseOut.done
                { st₁ with fragments := ingestList st₁.fragments frs })
            else phase1Loop svc sample bs rest
              { st₁ with fragments := ingestList st₁.fragments frs })) =
          Except.ok (PhaseOut.done st') := h
      cases hc : is_puzzle_complete
          ({ st₁ with fragments := ingestList st₁.fragments frs } : DecoderState).fragments with
      | error e =>
        rw [hc, except_bind_err] at h2
        cases h2
      | ok c =>
        rw [hc, except_bind_ok] at h2
        cases c with
        | true =>
          have h3 := PhaseOut.done.inj (Except.ok.inj h2)
          rw [← h3]
          exact hc
        | false =>
          exact ih _ st' h2

theorem phase1_done (svc : Int → HttpOutcome) (sample : List Int)
    (st st' : DecoderState) (h : phase1 svc sample st = .ok (.done st')) :
    is_puzzle_complete st'.fragments = .ok true := by
  rw [phase1] at h
  cases hr : pyRange3 0 (sample.length : Int)
      (min st.max_concurrent (sample.length : Int)) with
  | error e =>
    rw [hr, except_bind_err] at h
    cases h
  | ok idxs =>
    rw [hr, except_bind_ok] at h
    exact phase1Loop_done svc sample (min st.max_concurrent (sample.length : Int))
      idxs st st' h

theorem strategy_some_complete (svc : Int → HttpOutcome) (sample : List Int)
    (fuel : Nat) (st st' : DecoderState)
    (h : smart_search_strategy svc sample fuel st = .ok (some st')) :
    ∃ c, is_puzzle_complete st'.fragments = .ok c := by
  rw [smart_search_strategy] at h
  cases hp1 : phase1 svc sample st with
  | error e =>
    rw [hp1, except_bind_err] at h
    cases h
  | ok po =>
    rw [hp1, except_bind_ok] at h
    cases po with
    | done st₁ =>
      have h' : Except.ok (some st₁) = Except.ok (some st') := h
      have h'' := Option.some.inj (Except.ok.inj h')
      rw [← h'']
      exact ⟨true, phase1_done svc sample st st₁ hp1⟩
    | cont st₁ =>
      have h2 : (phase2 svc st₁ >>= fun st₂ => phase3Run svc fuel st₂ 1 0) =
          .ok (some st') := h
      cases hp2 : phase2 svc st₁ with
      | error e =>
        rw [hp2, except_bind_err] at h2
        cases h2
      | ok st₂ =>
        rw [hp2, except_bind_ok] at h2
        exact phase3Run_some svc fuel st₂ 1 0 st' h2

/-- C8 (amended): whenever the search strategy ends (returns a terminal
state rather than raising), solve reports faithfully: if the terminal
store is incomplete, solve returns the empty message with the failure
status (and prints no partial message); if it is complete and its texts
join cleanly, solve returns the assembled message with the success
status. -/
theorem C8_solve_reports (svc : Int → HttpOutcome) (sample : List Int)
    (fuel : Nat) (st st' : DecoderState)
    (h : smart_search_strategy svc sample fuel st = .ok (some st')) :
    (is_puzzle_complete st'.fragments = .ok false →
      solve_puzzle svc sample fuel st = .ok (some ("", false))) ∧
    (∀ msg, is_puzzle_complete st'.fragments = .ok true →
      get_assembled_message st'.fragments = .ok msg →
      solve_puzzle svc sample fuel st = .ok (some (msg, true))) := by
  constructor
  · intro hc
    rw [solve_puzzle, h, except_bind_ok]
    show (is_puzzle_complete st'.fragments >>= fun c =>
      if c then (do
        let msg ← get_assembled_message st'.fragments
        (.ok (some (msg, true)) : Except PyErr (Option (String × Bool))))
      else .ok (some ("", false))) = _
    rw [hc, except_bind_ok]
    rfl
  · intro msg hc hmsg
    rw [solve_puzzle, h, except_bind_ok]
    show (is_puzzle_complete st'.fragments >>= fun c =>
      if c then (do
        let m ← get_assembled_message st'.fragments
        (.ok (some (m, true)) : Except PyErr (Option (String × Bool))))
      else .ok (some ("", false))) = _
    rw [hc, except_bind_ok]
    show (get_assembled_message st'.fragments >>= fun m =>
      (.ok (some (m, true)) : Except PyErr (Option (String × Bool)))) = _
    rw [hmsg, except_bind_ok]

/-- Witness for C8: the success scenario (fragments at identifiers 5 and 9;
the buggy contiguous probing finds index 0 at identifier 5, which alone is
a complete run, so solve returns that message with success), and the spec's
end-to-end failure scenario (a service with no valid fragments: solve
returns the empty message and failure after the give-up threshold). -/
theorem C8_solve_reports_witness :
    smart_search_strategy svcGood [5, 9] 5 initState = .ok (some stW1) ∧
    solve_puzzle svcGood [5, 9] 5 initState = .ok (some ("Hello", true)) ∧
    smart_search_strategy svcTimeoutAll [5] 105 stMc1 = .ok (some stW2) ∧
    solve_puzzle svcTimeoutAll [5] 105 stMc1 = .ok (some ("", false)) := by
  refine ⟨by decide, ?_, by decide, ?_⟩
  · exact (C8_solve_reports svcGood [5, 9] 5 initState stW1 (by decide)).2
      "Hello" (by decide) (by decide)
  · exact (C8_solve_reports svcTimeoutAll [5] 105 stMc1 stW2 (by decide)).1
      (by decide)

/-- C8 (counterexample): solve *can* raise.  Against a service answering
with well-formed 200 responses whose index field is a string, the junk
fragment is ingested and the very next completeness check raises a
TypeError that propagates out of solve — refuting "never raises an
exception". -/
theorem C8_counterexample :
    solve_puzzle svcBadIdx [1] 5 initState = .error .typeError := by decide
